import Mathlib

/-!
Verification of the teleport wire protocol and transfer state machine
against its Rust sources (`src/utils.rs`, `src/client.rs`, `src/server.rs`,
`src/main.rs`).  Pure fragments of the code are embedded as executable Lean
functions; byte streams are lists of naturals, machine integers are naturals
(the operations involved never overflow their machine widths), loops are
embedded either structurally or with an explicit fuel bound returning
`Option` (`none` = the fuel bound was reached, which is proved or checked
never to happen on the inputs of interest).

The repository's `teleport.rs` and `crypto.rs` modules (message structures,
header serialization, crypto context) are not part of the sources; the
definitions that stand in for them are marked `Modelled from the spec:` and
follow the specification text.
-/

set_option maxRecDepth 40000

namespace Teleport

/-- Protocol magic constant from `main.rs`: `const PROTOCOL: u64 = 0x54524f50454c4554`. -/
def PROTOCOL : Nat := 0x54524f50454c4554

/-- Little-endian integer value of a byte list (semantics of the `byteorder`
crate's `read_u64::<LittleEndian>` / `read_u32::<LittleEndian>` applied to the
bytes given). -/
def readLE : List Nat → Nat
  | [] => 0
  | b :: rest => b + 256 * readLE rest

/-- Modelled from the spec: the `Encrypted` flag is the high bit `0x80` of the
action byte (`TeleportAction::Encrypted` lives in the absent `teleport.rs`). -/
def ENCRYPTED : Nat := 128

/-- Modelled from the spec: the low 7 bits of the action byte name the message
kind, one of `Init`, `InitAck`, `Ecdh`, `EcdhAck`, `Data`.  The spec gives no
numeric values (they live in the absent `teleport.rs`); 1–5 in listed order. -/
def ACTION_KINDS : List Nat := [1, 2, 3, 4, 5]

/-- The wire frame `TeleportHeader` (fields used by `utils.rs`): action byte,
optional 12-byte IV, payload bytes.  The magic and payload length are
recomputed from the byte stream on each decode. -/
structure TeleportHeader where
  action : Nat
  iv : Option (List Nat)
  data : List Nat
deriving DecidableEq, Repr

/-- Error kinds surfaced by the framing codec. -/
inductive ErrKind where
  | invalidData
  | unexpectedEof
  | invalidAction
  | encryptionError
deriving DecidableEq, Repr

/-- Outcome of `recv_packet` on a byte stream that has ended: a decoded
header, an I/O error, or no result at all because the code loops forever. -/
inductive RecvResult where
  | ok (h : TeleportHeader)
  | err (e : ErrKind)
  | diverge
deriving DecidableEq, Repr

/-- Modelled from the spec: the per-connection crypto context `TeleportEnc`
(from the absent `crypto.rs`).  Only the AEAD decrypt direction is needed
here; it takes the IV and the ciphertext and may fail. -/
structure TeleportEnc where
  decrypt : List Nat → List Nat → Option (List Nat)

/-- Modelled from the spec: `TeleportHeader::deserialize` (absent
`teleport.rs`), following §4.1 of the spec.  Parses magic (8 bytes LE),
`payload_len` (4 bytes LE), the action byte, `payload_len` payload bytes and,
when the `Encrypted` bit is set, a trailing 12-byte IV.  Fails with
`InvalidData` on magic mismatch or truncation and with `InvalidAction` when
the low 7 bits of the action byte name no message kind. -/
def headerDeserialize (buf : List Nat) : Except ErrKind TeleportHeader :=
  if buf.length < 13 then .error .invalidData
  else if readLE (buf.take 8) ≠ PROTOCOL then .error .invalidData
  else
    let len := readLE ((buf.drop 8).take 4)
    let action := buf.getD 12 0
    if (action &&& 127) ∉ ACTION_KINDS then .error .invalidAction
    else if buf.length < 13 + len then .error .invalidData
    else
      let data := (buf.drop 13).take len
      if action &&& ENCRYPTED = ENCRYPTED then
        if buf.length < 13 + len + 12 then .error .invalidData
        else .ok { action := action, iv := some ((buf.drop (13 + len)).take 12), data := data }
      else .ok { action := action, iv := none, data := data }

/-- `utils.rs::recv_packet`, embedded over the full content of the byte
stream (all bytes that will ever arrive before the peer closes).  The initial
`loop { let len = sock.peek(&mut initbuf)?; if len == 13 { break } }` only
terminates once 13 bytes are available: on a stream that ends with fewer than
13 bytes, `peek` keeps returning the short count and the code spins forever,
modelled as `.diverge`.  Otherwise the magic, payload length and action are
read from the peeked bytes, the whole frame (header, payload, and 12-byte IV
when the `Encrypted` bit is set) is read with `read_exact` — which fails with
`UnexpectedEof` when the stream ends early — and deserialized.  For an
encrypted frame the `Encrypted` bit is XOR-cleared from the action, then the
payload is decrypted only when a crypto context `dec` is present; with
`dec = None` the frame is returned as-is. -/
def recv_packet (stream : List Nat) (dec : Option TeleportEnc) : RecvResult :=
  if stream.length < 13 then .diverge
  else if readLE (stream.take 8) ≠ PROTOCOL then .err .invalidData
  else
    let packetLen := readLE ((stream.drop 8).take 4)
    let action := stream.getD 12 0
    let encrypted := action &&& ENCRYPTED = ENCRYPTED
    let totalLen := 13 + packetLen + if encrypted then 12 else 0
    if stream.length < totalLen then .err .unexpectedEof
    else
      match headerDeserialize (stream.take totalLen) with
      | .error e => .err e
      | .ok out =>
        if encrypted then
          let out' : TeleportHeader := { out with action := out.action ^^^ ENCRYPTED }
          match dec with
          | some ctx =>
            match ctx.decrypt (out'.iv.getD []) out'.data with
            | some d => .ok { out' with data := d }
            | none => .err .encryptionError
          | none => .ok out'
        else .ok out

/-- The loop body of `utils.rs::gen_chunk_size`: starting from `chunk`,
double while `file_size / chunk > 2048`.  Structural on an explicit fuel
bound; `none` means the fuel ran out (proved below never to happen with the
bound chosen in `gen_chunk_size`). -/
def genChunkLoop (fileSize : Nat) : Nat → Nat → Option Nat
  | 0, _ => none
  | fuel + 1, chunk =>
    if fileSize / chunk > 2048 then genChunkLoop fileSize fuel (chunk * 2)
    else some chunk

/-- `utils.rs::gen_chunk_size`: double a chunk size from 1024 until the file
holds at most 2048 chunks, then clamp to `u32::MAX = 2^32 - 1`. -/
def gen_chunk_size (fileSize : Nat) : Option Nat :=
  match genChunkLoop fileSize (fileSize + 1) 1024 with
  | some chunk => some (if chunk > 2 ^ 32 - 1 then 2 ^ 32 - 1 else chunk)
  | none => none

/-- Modelled from the spec: the `TeleportFeatures` bitset values, given in §3
as `NewFile=1, Overwrite=2, Backup=4, Rename=8, Encrypted=16, Delta=32`
(the enum itself lives in the absent `teleport.rs`). -/
inductive TeleportFeatures where
  | newFile
  | overwrite
  | backup
  | rename
  | encrypted
  | delta
deriving DecidableEq, Repr

def TeleportFeatures.toU32 : TeleportFeatures → Nat
  | .newFile => 1
  | .overwrite => 2
  | .backup => 4
  | .rename => 8
  | .encrypted => 16
  | .delta => 32

/-- `utils.rs::add_feature`: or the feature's bit into the optional bitset,
creating it when absent. -/
def add_feature (opt : Option Nat) (add : TeleportFeatures) : Option Nat :=
  match opt with
  | some o => some (o ||| add.toU32)
  | none => some add.toU32

/-- `utils.rs::check_feature`: the optional bitset contains all of the
feature's bits. -/
def check_feature (opt : Option Nat) (check : TeleportFeatures) : Bool :=
  match opt with
  | some o => o &&& check.toU32 == check.toU32
  | none => false

/-- The `Delta` payload `TeleportDelta` (§3 of the spec; the struct lives in
the absent `teleport.rs` but all four fields are written by
`utils.rs::calc_delta_hash`). -/
structure TeleportDelta where
  filesize : Nat
  chunk_size : Nat
  hash : Nat
  chunk_hash : List Nat
deriving DecidableEq, Repr

/-- The `Data` payload `TeleportData` as populated by `client.rs`. -/
structure TeleportData where
  offset : Nat
  data_len : Nat
  data : List Nat
deriving DecidableEq, Repr

/-- The read loop of `utils.rs::calc_delta_hash`, returning the successive
contents of the read buffer that are fed to the hashers.  `file.read(&mut
buf)` fills the first `len` bytes of the buffer with the next bytes of the
file, where `len = min buf.length (file.length - pos)`, and leaves the rest
of the buffer as it was (stale bytes of the previous chunk).  The source then
feeds the whole buffer — not just the `len` bytes read — to both the
per-chunk hasher and the whole-file hasher; the loop stops at the first
zero-length read.  Fuel-bounded structural recursion (`none` = fuel ran out;
`file.length + 2` iterations always suffice since every non-final read moves
the position forward). -/
def calcFeedsLoop (file : List Nat) : Nat → Nat → List Nat → Option (List (List Nat))
  | 0, _, _ => none
  | fuel + 1, pos, buf =>
    let bytes := (file.drop pos).take buf.length
    let len := bytes.length
    let buf2 := bytes ++ buf.drop len
    if len = 0 then some []
    else
      match calcFeedsLoop file fuel (pos + len) buf2 with
      | some rest => some (buf2 :: rest)
      | none => none

/-- `utils.rs::calc_delta_hash`, parametric in the two xxh3 hash functions
(per-chunk and whole-file): the source's hashers are external library code,
and the claims under scrutiny are about *which bytes* are fed to them.  The
chunk digests are `chunkHash` of each successive buffer content and the
whole-file digest is `wholeHash` of their concatenation (the whole-file
hasher is fed exactly the same buffers in sequence).  The result records the
file's byte length, the buffer (chunk) size chosen by `gen_chunk_size`, and
the digests. -/
def calc_delta_hash (chunkHash : List Nat → Nat) (wholeHash : List Nat → Nat)
    (file : List Nat) : Option TeleportDelta :=
  match gen_chunk_size file.length with
  | none => none
  | some cs =>
    match calcFeedsLoop file (file.length + 2) 0 (List.replicate cs 0) with
    | none => none
    | some feds =>
      some { filesize := file.length
             chunk_size := cs
             hash := wholeHash feds.flatten
             chunk_hash := feds.map chunkHash }

/-- The data-streaming loop of `client.rs::send`, embedded over the file's
bytes with the source's state: `sent` is the running byte offset, the buffer
length is the server delta's `chunk_size` (or 4096 without one), and the
chunk index is `sent / buf.len()`.  A chunk is skipped — offset advanced by a
full buffer, nothing read or emitted — exactly when both delta hash vectors
are present (`compare`), the index is below both vector lengths, and the two
hashes at the index agree; otherwise the client seeks to `sent`, reads
`min buf.len() (file.length - sent)` bytes (the read semantics of a regular
file at that offset) and, unless the read is empty (which ends the loop),
emits a `Data` frame carrying the offset, the read length and the bytes
read.  Fuel-bounded structural recursion; `none` = fuel ran out. -/
def sendLoop (compare : Bool) (sh ch : List Nat) (bufLen : Nat) (file : List Nat) :
    Nat → Nat → Option (List TeleportData)
  | 0, _ => none
  | fuel + 1, sent =>
    let index := sent / bufLen
    if compare = true ∧ index < sh.length ∧ index < ch.length ∧ sh.getD index 0 = ch.getD index 0 then
      sendLoop compare sh ch bufLen file fuel (sent + bufLen)
    else
      let len := min bufLen (file.length - sent)
      if len = 0 then some []
      else
        match sendLoop compare sh ch bufLen file fuel (sent + len) with
        | some rest =>
          some ({ offset := sent, data_len := len, data := (file.drop sent).take len } :: rest)
        | none => none

/-- An upper bound on the chunk indices the send loop can visit: every index
at or beyond both `file.length / cs + 1` and `min sh.length ch.length` is
past the end of the file and outside both hash vectors. -/
def numIndices (file sh ch : List Nat) (cs : Nat) : Nat :=
  max (file.length / cs + 1) (min sh.length ch.length)

/-- `client.rs::send_data_complete`: the terminating `Data` frame, zero-length
at offset `filesize`. -/
def send_data_complete (file : List Nat) : TeleportData :=
  { offset := file.length, data_len := 0, data := [] }

/-- `client.rs::send`: choose the buffer size from the server delta (4096
without one), stream the file with `sendLoop`, then append the terminating
frame from `send_data_complete`.  Returns the list of `Data` frames written
to the socket. -/
def send (file : List Nat) (delta fileDelta : Option TeleportDelta) : Option (List TeleportData) :=
  let bufLen := match delta with
    | some d => d.chunk_size
    | none => 4096
  let compare := delta.isSome && fileDelta.isSome
  let sh := match delta with
    | some d => d.chunk_hash
    | none => []
  let ch := match fileDelta with
    | some d => d.chunk_hash
    | none => []
  match sendLoop compare sh ch bufLen file (2 * numIndices file sh ch bufLen + 2) 0 with
  | some frames => some (frames ++ [send_data_complete file])
  | none => none

/-- Modelled from the spec: the `TeleportStatus` values of `InitAck.status`,
listed in §3 as `Proceed`, `NoOverwrite`, `NoPermission`, `NoSpace`,
`WrongVersion`, `RequiresEncryption`, `EncryptionError`, `UnknownAction`
(the enum lives in the absent `teleport.rs`). -/
inductive TeleportStatus where
  | proceed
  | noOverwrite
  | noPermission
  | noSpace
  | wrongVersion
  | requiresEncryption
  | encryptionError
  | unknownAction
deriving DecidableEq, Repr

/-- Modelled from the spec: the `TryFrom` conversion of a status byte into
`TeleportStatus`, numbering the eight listed values 0–7 in listed order (the
spec gives no numeric values); any other byte has no corresponding status. -/
def statusFromU8 (s : Nat) : Option TeleportStatus :=
  if s = 0 then some .proceed
  else if s = 1 then some .noOverwrite
  else if s = 2 then some .noPermission
  else if s = 3 then some .noSpace
  else if s = 4 then some .wrongVersion
  else if s = 5 then some .requiresEncryption
  else if s = 6 then some .encryptionError
  else if s = 7 then some .unknownAction
  else none

/-- What the client does next after dispatching on the `InitAck` status. -/
inductive ClientDispatch where
  | skipFile
  | abortRun
  | proceedToData
  | panics
deriving DecidableEq, Repr

/-- The `match recv.status.try_into().unwrap() { ... }` dispatch in
`client.rs::run`: three statuses `continue` to the next file, three `break`
the whole run, and the wildcard arm `_ => ()` falls through to the data
transfer — which therefore covers both `Proceed` and `UnknownAction`.  A
status byte outside the enum makes `try_into().unwrap()` panic. -/
def clientDispatch (status : Nat) : ClientDispatch :=
  match statusFromU8 status with
  | none => .panics
  | some .noOverwrite => .skipFile
  | some .noPermission => .skipFile
  | some .noSpace => .skipFile
  | some .wrongVersion => .abortRun
  | some .requiresEncryption => .abortRun
  | some .encryptionError => .abortRun
  | some _ => .proceedToData

/-- Which per-file statistics counter `client.rs::run` increments for a file
that went through: `sent` or `skip` (printed as "Sent/Same"). -/
inductive TallyKind where
  | sent
  | same
deriving DecidableEq, Repr

/-- The `file_delta.hash == csum_recv` comparison guarding the identical-file
short circuit in `client.rs::run`: both the server checksum and the joined
client delta must be present and their whole-file hashes equal. -/
def sameFile (csumRecv : Option Nat) (fileDelta : Option TeleportDelta) : Bool :=
  match csumRecv, fileDelta with
  | some c, some fd => fd.hash == c
  | _, _ => false

/-- The tail of `client.rs::run` after a non-skipping, non-aborting `InitAck`
dispatch: `csum_recv` is the server delta's whole-file hash; the background
delta handle is joined into `file_delta` *only when the server echoed
`Overwrite` in `InitAck.features`*; if both hashes are present and equal the
client sends the single terminating frame (`send_data_complete`) and counts
the file as "Same", otherwise it streams the file with `send` and counts it
as sent. -/
def clientAfterAck (features : Option Nat) (serverDelta computedDelta : Option TeleportDelta)
    (file : List Nat) : Option (List TeleportData) × TallyKind :=
  let csumRecv := serverDelta.map (·.hash)
  let fileDelta := if check_feature features .overwrite then computedDelta else none
  if sameFile csumRecv fileDelta then (some [send_data_complete file], .same)
  else (send file serverDelta fileDelta, .sent)

/-- The `Init` header the sparse server in `server.rs` parses out of its
first read: a JSON `TeleportInit` with these five fields (struct in the
absent `teleport.rs`); note it carries no `features` bitset at all. -/
structure TeleportInitJson where
  filenum : Nat
  totalfiles : Nat
  filename : String
  chmod : Nat
  filesize : Nat
deriving DecidableEq, Repr

/-- A flat filesystem for the server model: file name to byte content. -/
def FileSys := List (String × List Nat)

/-- Write (create or truncate-and-replace) a file's content. -/
def fsWrite (fs : FileSys) (name : String) (content : List Nat) : FileSys :=
  match fs with
  | [] => [(name, content)]
  | (n, c) :: rest =>
    if n = name then (name, content) :: rest else (n, c) :: fsWrite rest name content

/-- Read a file's content. -/
def fsRead (fs : FileSys) (name : String) : Option (List Nat) :=
  match fs with
  | [] => none
  | (n, c) :: rest => if n = name then some c else fsRead rest name

/-- The data loop of `server.rs::recv`: append every socket read to the file
until a zero-length read. -/
def writeLoop : List (List Nat) → List Nat
  | [] => []
  | c :: rest => if c = [] then [] else c ++ writeLoop rest

/-- `server.rs::recv`, after parsing the JSON header: `File::create`
unconditionally creates or truncates the destination named in the header
(no existence check, no feature check — the header has no features), then the
server replies `TeleportResponse { ack: TeleportStatus::Proceed }` and
appends every subsequent socket read to the file.  `incoming` is the list of
socket reads that follow the header.  Returns the acknowledged status and
the filesystem afterwards. -/
def serverRecv (fs : FileSys) (header : TeleportInitJson) (incoming : List (List Nat)) :
    TeleportStatus × FileSys :=
  let fs1 := fsWrite fs header.filename []
  (.proceed, fsWrite fs1 header.filename (writeLoop incoming))

/-- Following the claim's words (the skip set of §4.5 step 7): chunk index
`i` is skipped iff it is below the length of both chunk-hash vectors and the
two vectors agree at `i`. -/
def skip_chunk (sh ch : List Nat) (i : Nat) : Prop :=
  i < sh.length ∧ i < ch.length ∧ sh.getD i 0 = ch.getD i 0

instance (sh ch : List Nat) (i : Nat) : Decidable (skip_chunk sh ch i) :=
  inferInstanceAs (Decidable (_ ∧ _ ∧ _))

/-- The bytes of chunk `i` of a file under chunk size `cs`: the (possibly
short or empty) slice starting at byte offset `i * cs`. -/
def chunk_at (file : List Nat) (cs i : Nat) : List Nat :=
  (file.drop (i * cs)).take cs

/-- Following the claim's words: the `Data` frame for chunk index `i` —
`none` when the chunk is skipped or lies past the end of the file, otherwise
a frame whose offset is the true byte offset of the chunk and whose length
is the number of bytes actually read there. -/
def spec_frame (file sh ch : List Nat) (cs i : Nat) : Option TeleportData :=
  if skip_chunk sh ch i then none
  else if chunk_at file cs i = [] then none
  else some { offset := i * cs, data_len := (chunk_at file cs i).length, data := chunk_at file cs i }

/-- Following the claim's words: the chunk `Data` frames of one transfer, in
chunk order.  Indices at or beyond `numIndices` are past the end of the file
and outside both hash vectors, so they contribute no frame. -/
def spec_frames (file sh ch : List Nat) (cs : Nat) : List TeleportData :=
  (List.range (numIndices file sh ch cs)).filterMap (spec_frame file sh ch cs)

/-! ## Bitwise helper lemmas -/

theorem and_eq_self_of_or (o f : Nat) : (o ||| f) &&& f = f := by
  apply Nat.eq_of_testBit_eq
  intro i
  simp only [Nat.testBit_and, Nat.testBit_or]
  cases f.testBit i <;> simp

theorem and_mono_or (o f g : Nat) (h : o &&& g = g) : (o ||| f) &&& g = g := by
  apply Nat.eq_of_testBit_eq
  intro i
  have hb : (o &&& g).testBit i = g.testBit i := by rw [h]
  simp only [Nat.testBit_and] at hb
  simp only [Nat.testBit_and, Nat.testBit_or]
  cases hg : g.testBit i
  · simp
  · rw [hg] at hb
    simp only [Bool.and_true] at hb ⊢
    rw [hb]
    simp

theorem and_128_cases (a : Nat) : a &&& 128 = (a.testBit 7).toNat * 128 := by
  have : (128 : Nat) = 2 ^ 7 := by norm_num
  rw [this, Nat.and_two_pow]

theorem and_128_of_ne (a : Nat) (h : ¬ a &&& 128 = 128) : a &&& 128 = 0 := by
  rw [and_128_cases] at h ⊢
  cases hb : a.testBit 7
  · simp
  · rw [hb] at h
    simp at h

theorem xor_128_clears (a : Nat) (h : a &&& 128 = 128) : (a ^^^ 128) &&& 128 = 0 := by
  rw [and_128_cases] at h ⊢
  have hb : a.testBit 7 = true := by
    cases hb : a.testBit 7
    · rw [hb] at h
      simp at h
    · rfl
  have h128 : (128 : Nat).testBit 7 = true := by decide
  rw [Nat.testBit_xor, hb, h128]
  simp

/-! ## C9: add_feature / check_feature -/

/-- Claim C9: for every option value `opt` and feature flags `f` and `g`,
after `add_feature opt f` the feature `f` checks true (also when `opt` was
`None`), and any feature `g` that checked true before still checks true
after: `add_feature` only sets bits, never clears previously set features. -/
theorem add_feature_check (opt : Option Nat) (f g : TeleportFeatures) :
    check_feature (add_feature opt f) f = true ∧
    (check_feature opt g = true → check_feature (add_feature opt f) g = true) := by
  constructor
  · cases opt with
    | none => simp [add_feature, check_feature, Nat.and_self]
    | some o => simp [add_feature, check_feature, and_eq_self_of_or]
  · intro hg
    cases opt with
    | none => simp [check_feature] at hg
    | some o =>
      simp only [check_feature, beq_iff_eq] at hg
      simp [add_feature, check_feature, and_mono_or o f.toU32 g.toU32 hg]

/-- Witness for C9 at `opt = some 1`, `f = Overwrite`, `g = NewFile`
(`1 &&& 1 = 1`, so `NewFile` checked true before the call). -/
theorem add_feature_check_witness :
    check_feature (add_feature (some 1) .overwrite) .overwrite = true ∧
    check_feature (add_feature (some 1) .overwrite) .newFile = true :=
  ⟨(add_feature_check (some 1) .overwrite .newFile).1,
   (add_feature_check (some 1) .overwrite .newFile).2 (by decide)⟩

/-! ## C10: recv_packet clears the Encrypted bit -/

theorem getD_take (l : List Nat) (n i : Nat) (h : i < n) :
    (l.take n).getD i 0 = l.getD i 0 := by
  simp [List.getD, List.getElem?_take_of_lt h]

theorem headerDeserialize_action (buf : List Nat) (out : TeleportHeader)
    (h : headerDeserialize buf = .ok out) : out.action = buf.getD 12 0 := by
  simp only [headerDeserialize] at h
  split_ifs at h
  all_goals
    first
      | exact Except.noConfusion h
      | (injection h with h2; rw [← h2])

/-- Claim C10: every frame successfully returned by `recv_packet` has the
`Encrypted` bit (0x80) cleared in its action field — when the wire action
byte carried the flag, `recv_packet` XORs it away before returning. -/
theorem recv_packet_clears_encrypted (stream : List Nat) (dec : Option TeleportEnc)
    (h : TeleportHeader) (hr : recv_packet stream dec = .ok h) :
    h.action &&& 128 = 0 := by
  simp only [recv_packet, ENCRYPTED] at hr
  by_cases h13 : stream.length < 13
  · rw [if_pos h13] at hr
    exact RecvResult.noConfusion hr
  rw [if_neg h13] at hr
  by_cases hm : readLE (stream.take 8) = PROTOCOL
  · rw [if_neg (not_not_intro hm)] at hr
    by_cases henc : stream.getD 12 0 &&& 128 = 128
    · simp only [if_pos henc] at hr
      by_cases hlen : stream.length < 13 + readLE ((stream.drop 8).take 4) + 12
      · rw [if_pos hlen] at hr
        exact RecvResult.noConfusion hr
      rw [if_neg hlen] at hr
      cases hd : headerDeserialize (stream.take (13 + readLE ((stream.drop 8).take 4) + 12)) with
      | error e =>
        simp only [hd] at hr
        exact RecvResult.noConfusion hr
      | ok out =>
        simp only [hd] at hr
        have ha : out.action = stream.getD 12 0 := by
          rw [headerDeserialize_action _ _ hd]
          exact getD_take _ _ _ (by omega)
        split at hr
        all_goals try split at hr
        all_goals try exact RecvResult.noConfusion hr
        all_goals
          cases hr
          exact xor_128_clears _ (by rw [ha]; exact henc)
    · simp only [if_neg henc] at hr
      by_cases hlen : stream.length < 13 + readLE ((stream.drop 8).take 4) + 0
      · rw [if_pos hlen] at hr
        exact RecvResult.noConfusion hr
      rw [if_neg hlen] at hr
      cases hd : headerDeserialize (stream.take (13 + readLE ((stream.drop 8).take 4) + 0)) with
      | error e =>
        simp only [hd] at hr
        exact RecvResult.noConfusion hr
      | ok out =>
        simp only [hd] at hr
        cases hr
        rw [headerDeserialize_action _ _ hd, getD_take _ _ _ (by omega)]
        exact and_128_of_ne _ henc
  · rw [if_pos hm] at hr
    exact RecvResult.noConfusion hr

/-- Witness for C10: a well-formed 13-byte `Init` frame with empty payload is
decoded successfully and the returned action has the high bit clear. -/
theorem recv_packet_clears_encrypted_witness :
    recv_packet [0x54, 0x45, 0x4C, 0x45, 0x50, 0x4F, 0x52, 0x54, 0, 0, 0, 0, 1] none =
      .ok { action := 1, iv := none, data := [] } ∧
    TeleportHeader.action { action := 1, iv := none, data := [] } &&& 128 = 0 :=
  ⟨by decide,
   recv_packet_clears_encrypted [0x54, 0x45, 0x4C, 0x45, 0x50, 0x4F, 0x52, 0x54, 0, 0, 0, 0, 1]
     none { action := 1, iv := none, data := [] } (by decide)⟩

/-! ## C2: encrypted frame with no crypto context -/

/-- Claim C2 (code bug): a frame whose action byte has the `Encrypted` flag
(0x80) set, received with `dec = None`, is **not** rejected: `recv_packet`
clears the flag and returns `Ok` with the payload bytes still ciphertext.
Here the frame has payload `[9]` and a zero IV; the call returns the frame
with action `1` (flag stripped) and the ciphertext byte `9` passed through
as if it were plaintext, instead of an error. -/
theorem recv_packet_no_ctx_passthrough :
    recv_packet ([0x54, 0x45, 0x4C, 0x45, 0x50, 0x4F, 0x52, 0x54, 1, 0, 0, 0, 129, 9] ++
        List.replicate 12 0) none =
      .ok { action := 1, iv := some (List.replicate 12 0), data := [9] } := by
  decide

/-! ## C7: strict two-phase decoding -/

/-- Counterexample to claim C7: a stream that ends after 8 bytes, all zero.
Its first 8 bytes differ from the magic constant and it ends before a
complete frame, yet `recv_packet` neither fails with `InvalidData` nor with
`UnexpectedEof` — the 13-byte peek loop never sees 13 bytes and the code
spins forever. -/
theorem recv_packet_short_stream_diverges :
    recv_packet (List.replicate 8 0) none = .diverge ∧
    recv_packet (List.replicate 8 0) none ≠ .err .unexpectedEof ∧
    recv_packet (List.replicate 8 0) none ≠ .err .invalidData := by
  decide

/-- Claim C7 as amended: decoding is strict and two-phase, but the EOF
behaviour depends on where the stream ends.  A stream that ends with fewer
than 13 bytes makes the peek loop spin forever.  With at least 13 bytes
available, a magic mismatch fails with `InvalidData`, and a stream that ends
before the full frame (payload plus the 12-byte IV when the `Encrypted`
flag is set) fails with `UnexpectedEof`. -/
theorem recv_packet_decode_amended :
    (∀ (s : List Nat) (d : Option TeleportEnc), s.length < 13 → recv_packet s d = .diverge) ∧
    (∀ (s : List Nat) (d : Option TeleportEnc), 13 ≤ s.length →
        readLE (s.take 8) ≠ PROTOCOL → recv_packet s d = .err .invalidData) ∧
    (∀ (s : List Nat) (d : Option TeleportEnc), 13 ≤ s.length →
        readLE (s.take 8) = PROTOCOL →
        s.length < 13 + readLE ((s.drop 8).take 4) +
          (if s.getD 12 0 &&& 128 = 128 then 12 else 0) →
        recv_packet s d = .err .unexpectedEof) := by
  refine ⟨?_, ?_, ?_⟩
  · intro s d h
    simp [recv_packet, h]
  · intro s d h13 hm
    simp only [recv_packet, ENCRYPTED]
    rw [if_neg (by omega), if_pos hm]
  · intro s d h13 hm hlen
    simp only [recv_packet, ENCRYPTED]
    rw [if_neg (by omega), if_neg (not_not_intro hm), if_pos hlen]

/-- Witness for C7 (amended): 13 zero bytes fail with `InvalidData`; a
header announcing a 5-byte payload on a stream that ends at 13 bytes fails
with `UnexpectedEof`; a single-byte stream diverges. -/
theorem recv_packet_decode_amended_witness :
    recv_packet (List.replicate 13 0) none = .err .invalidData ∧
    recv_packet [0x54, 0x45, 0x4C, 0x45, 0x50, 0x4F, 0x52, 0x54, 5, 0, 0, 0, 1] none =
      .err .unexpectedEof ∧
    recv_packet [0] none = .diverge :=
  ⟨recv_packet_decode_amended.2.1 _ none (by decide) (by decide),
   recv_packet_decode_amended.2.2 _ none (by decide) (by decide) (by decide),
   recv_packet_decode_amended.1 _ none (by decide)⟩

/-! ## C4: gen_chunk_size characterization -/

theorem genChunkLoop_spec (fs : Nat) : ∀ (fuel c : Nat), 0 < c → fs < c * 2 ^ fuel →
    ∃ k, genChunkLoop fs (fuel + 1) c = some (c * 2 ^ k) ∧
      fs / (c * 2 ^ k) ≤ 2048 ∧ ∀ j < k, 2048 < fs / (c * 2 ^ j) := by
  intro fuel
  induction fuel with
  | zero =>
    intro c hc hlt
    have hdiv : fs / c = 0 := Nat.div_eq_of_lt (by simpa using hlt)
    refine ⟨0, ?_, ?_, fun j hj => absurd hj (by omega)⟩
    · simp [genChunkLoop, hdiv]
    · simp [hdiv]
  | succ fuel ih =>
    intro c hc hlt
    by_cases hgt : fs / c > 2048
    · have hc2 : 0 < c * 2 := by omega
      have hlt2 : fs < c * 2 * 2 ^ fuel := by
        rw [mul_assoc, show (2 : Nat) * 2 ^ fuel = 2 ^ (fuel + 1) from by rw [pow_succ, mul_comm]]
        exact hlt
      obtain ⟨k, heq, hle, hmin⟩ := ih (c * 2) hc2 hlt2
      have harr : ∀ m : Nat, c * 2 ^ (m + 1) = c * 2 * 2 ^ m := by
        intro m
        ring
      refine ⟨k + 1, ?_, ?_, ?_⟩
      · show genChunkLoop fs (fuel + 1 + 1) c = _
        rw [show genChunkLoop fs (fuel + 1 + 1) c =
              if fs / c > 2048 then genChunkLoop fs (fuel + 1) (c * 2) else some c from rfl,
          if_pos hgt, heq, harr]
      · rw [harr]
        exact hle
      · intro j hj
        cases j with
        | zero => simpa using hgt
        | succ j' =>
          rw [harr]
          exact hmin j' (by omega)
    · refine ⟨0, ?_, ?_, fun j hj => absurd hj (by omega)⟩
      · simp [genChunkLoop, hgt]
      · simpa using (by omega : fs / c ≤ 2048)

/-- Claim C4: for every 64-bit filesize, `gen_chunk_size` returns
`1024 * 2^k` for the smallest `k ≥ 0` with `filesize / (1024 * 2^k) ≤ 2048`
under integer division, clamped to `2^32 - 1`.  It is a pure, total Lean
function of the filesize alone, so both peers hashing the same file length
pick the same chunk size. -/
theorem gen_chunk_size_spec (fs : Nat) (_hfs : fs < 2 ^ 64) :
    ∃ k, gen_chunk_size fs =
        some (if 1024 * 2 ^ k > 2 ^ 32 - 1 then 2 ^ 32 - 1 else 1024 * 2 ^ k) ∧
      fs / (1024 * 2 ^ k) ≤ 2048 ∧ ∀ j < k, 2048 < fs / (1024 * 2 ^ j) := by
  have hlt : fs < 1024 * 2 ^ fs :=
    lt_of_lt_of_le (Nat.lt_two_pow fs) (Nat.le_mul_of_pos_left _ (by norm_num))
  obtain ⟨k, heq, hle, hmin⟩ := genChunkLoop_spec fs fs 1024 (by norm_num) hlt
  refine ⟨k, ?_, hle, hmin⟩
  simp only [gen_chunk_size, heq]

/-- Witness for C4 at a 3 MB file size. -/
theorem gen_chunk_size_spec_witness :
    ∃ k, gen_chunk_size 3000000 =
        some (if 1024 * 2 ^ k > 2 ^ 32 - 1 then 2 ^ 32 - 1 else 1024 * 2 ^ k) ∧
      3000000 / (1024 * 2 ^ k) ≤ 2048 ∧ ∀ j < k, 2048 < 3000000 / (1024 * 2 ^ j) :=
  gen_chunk_size_spec 3000000 (by norm_num)

/-! ## C8: client dispatch on InitAck status -/

/-- Counterexample to claim C8: a status byte of 7 (`UnknownAction`, a valid
status outside the recognized set `Proceed`/`NoOverwrite`/`NoPermission`/
`NoSpace`/`WrongVersion`/`RequiresEncryption`/`EncryptionError`) falls into
the client's wildcard `_ => ()` arm and the client proceeds to stream Data
frames instead of aborting. -/
theorem clientDispatch_unknownAction_proceeds :
    clientDispatch 7 = .proceedToData ∧ clientDispatch 7 ≠ .abortRun := by
  decide

/-- Claim C8 as amended: `NoOverwrite`/`NoPermission`/`NoSpace` (bytes 1–3)
skip only the current file; `WrongVersion`/`RequiresEncryption`/
`EncryptionError` (bytes 4–6) abort the whole run; both `Proceed` (0) and
`UnknownAction` (7) fall through the wildcard arm and the client proceeds to
send Data frames; a status byte outside the enum makes
`try_into().unwrap()` panic. -/
theorem clientDispatch_amended :
    (clientDispatch 1 = .skipFile ∧ clientDispatch 2 = .skipFile ∧ clientDispatch 3 = .skipFile) ∧
    (clientDispatch 4 = .abortRun ∧ clientDispatch 5 = .abortRun ∧ clientDispatch 6 = .abortRun) ∧
    (clientDispatch 0 = .proceedToData ∧ clientDispatch 7 = .proceedToData) ∧
    (∀ s : Nat, 8 ≤ s → clientDispatch s = .panics) := by
  refine ⟨by decide, by decide, by decide, ?_⟩
  intro s hs
  have h : statusFromU8 s = none := by
    simp only [statusFromU8]
    repeat rw [if_neg (by omega)]
  simp [clientDispatch, h]

/-- Witness for C8 (amended) at the out-of-enum status byte 9. -/
theorem clientDispatch_amended_witness : clientDispatch 9 = .panics :=
  clientDispatch_amended.2.2.2 9 (by norm_num)

/-! ## C1: server destination policy -/

/-- Claim C1 (code bug): with destination `"f"` already present with content
`[1, 2, 3]` and an `Init` that carries no `Overwrite` feature (the sparse
server's JSON header has no features field at all), the server does not
reply `NoOverwrite` and leave the file unchanged: `File::create` truncates
the destination before any policy check and the reply is always `Proceed`.
With no data following, the pre-existing content is destroyed. -/
theorem serverRecv_truncates_existing :
    serverRecv [("f", [1, 2, 3])]
        { filenum := 1, totalfiles := 1, filename := "f", chmod := 420, filesize := 0 } [] =
      (.proceed, [("f", [])]) ∧
    fsRead [("f", [1, 2, 3])] "f" = some [1, 2, 3] ∧
    TeleportStatus.proceed ≠ TeleportStatus.noOverwrite := by
  refine ⟨?_, ?_, by decide⟩ <;> rfl

/-! ## C3: delta hashing feeds stale buffer bytes -/

/-- Claim C3 (code bug): hashing a 1025-byte file (1025 copies of byte 7,
chunk size 1024) feeds the hashers the *full* 1024-byte buffer for the short
final chunk.  Instantiating the hash functions with `List.length` to observe
how many bytes each digest covers: the final chunk's digest covers 1024
bytes although only 1 byte was read for it (the file's bytes from offset
1024 are just `[7]`), and the whole-file digest covers 2048 bytes for the
1025-byte file. -/
theorem calc_delta_hash_stale_tail :
    calc_delta_hash List.length List.length (List.replicate 1025 7) =
      some { filesize := 1025, chunk_size := 1024, hash := 2048, chunk_hash := [1024, 1024] } ∧
    (List.replicate 1025 7).drop 1024 = [7] := by
  constructor
  · rfl
  · rfl

/-! ## C5: the send loop streams exactly the non-skipped chunks -/

theorem sendLoop_succ (compare : Bool) (sh ch : List Nat) (bufLen : Nat) (file : List Nat)
    (fuel sent : Nat) :
    sendLoop compare sh ch bufLen file (fuel + 1) sent =
      if compare = true ∧ sent / bufLen < sh.length ∧ sent / bufLen < ch.length ∧
          sh.getD (sent / bufLen) 0 = ch.getD (sent / bufLen) 0 then
        sendLoop compare sh ch bufLen file fuel (sent + bufLen)
      else
        if min bufLen (file.length - sent) = 0 then some []
        else
          match sendLoop compare sh ch bufLen file fuel (sent + min bufLen (file.length - sent)) with
          | some rest =>
            some ({ offset := sent, data_len := min bufLen (file.length - sent),
                    data := (file.drop sent).take (min bufLen (file.length - sent)) } :: rest)
          | none => none := rfl

theorem chunk_at_eq_nil (file : List Nat) (cs i : Nat) (h : file.length ≤ i * cs) :
    chunk_at file cs i = [] := by
  unfold chunk_at
  rw [List.drop_eq_nil_of_le h, List.take_nil]

theorem spec_frame_none_of_past (file sh ch : List Nat) (cs i : Nat)
    (h : file.length ≤ i * cs) : spec_frame file sh ch cs i = none := by
  unfold spec_frame
  rw [chunk_at_eq_nil file cs i h]
  split_ifs <;> simp_all

theorem spec_tail_nil (file sh ch : List Nat) (cs j d : Nat)
    (h : ∀ i, j ≤ i → spec_frame file sh ch cs i = none) :
    (List.range' j d).filterMap (spec_frame file sh ch cs) = [] := by
  rw [List.filterMap_eq_nil_iff]
  intro a ha
  rw [List.mem_range'] at ha
  obtain ⟨i, hi, rfl⟩ := ha
  exact h _ (by omega)

theorem sendLoop_spec (file sh ch : List Nat) (cs : Nat) (hcs : 0 < cs) :
    ∀ (d j fuel : Nat), numIndices file sh ch cs - j = d → j ≤ numIndices file sh ch cs →
      2 * d + 2 ≤ fuel →
      sendLoop true sh ch cs file fuel (j * cs) =
        some ((List.range' j d).filterMap (spec_frame file sh ch cs)) := by
  intro d
  induction d with
  | zero =>
    intro j fuel hd hj hfuel
    have hK1 : file.length / cs + 1 ≤ numIndices file sh ch cs := by
      unfold numIndices
      omega
    obtain ⟨f, rfl⟩ : ∃ f, fuel = f + 1 := ⟨fuel - 1, by omega⟩
    rw [sendLoop_succ]
    have hidx : j * cs / cs = j := Nat.mul_div_left j hcs
    rw [hidx]
    have hskip : ¬ (true = true ∧ j < sh.length ∧ j < ch.length ∧ sh.getD j 0 = ch.getD j 0) := by
      have hK2 : min sh.length ch.length ≤ numIndices file sh ch cs := by
        unfold numIndices
        omega
      rintro ⟨-, h1, h2, -⟩
      omega
    rw [if_neg hskip]
    have hpast : file.length < j * cs := by
      have h1 : file.length < (file.length / cs + 1) * cs := by
        rw [Nat.succ_mul]
        have h2 := Nat.mod_lt file.length hcs
        have h3 := Nat.div_add_mod file.length cs
        have h4 : file.length / cs * cs = cs * (file.length / cs) := Nat.mul_comm _ _
        omega
      exact lt_of_lt_of_le h1 (Nat.mul_le_mul_right cs (by omega))
    have hlen0 : min cs (file.length - j * cs) = 0 := by
      rw [Nat.sub_eq_zero_of_le (le_of_lt hpast), Nat.min_zero]
    rw [if_pos hlen0]
    rfl
  | succ d ih =>
    intro j fuel hd hj hfuel
    have hjK : j < numIndices file sh ch cs := by omega
    obtain ⟨f, rfl⟩ : ∃ f, fuel = f + 1 := ⟨fuel - 1, by omega⟩
    rw [sendLoop_succ]
    have hidx : j * cs / cs = j := Nat.mul_div_left j hcs
    rw [hidx]
    by_cases hskip : j < sh.length ∧ j < ch.length ∧ sh.getD j 0 = ch.getD j 0
    · rw [if_pos ⟨rfl, hskip⟩]
      rw [show j * cs + cs = (j + 1) * cs from by ring]
      rw [ih (j + 1) f (by omega) (by omega) (by omega)]
      have hsf : spec_frame file sh ch cs j = none := by
        unfold spec_frame
        rw [if_pos (show skip_chunk sh ch j from hskip)]
      rw [List.range'_succ]
      simp only [List.filterMap_cons, hsf]
    · rw [if_neg (by rintro ⟨-, hb, hc, hdd⟩; exact hskip ⟨hb, hc, hdd⟩)]
      by_cases hpast : file.length ≤ j * cs
      · have hlen0 : min cs (file.length - j * cs) = 0 := by
          rw [Nat.sub_eq_zero_of_le hpast, Nat.min_zero]
        rw [if_pos hlen0]
        rw [spec_tail_nil file sh ch cs j (d + 1) (fun i hi =>
          spec_frame_none_of_past file sh ch cs i
            (le_trans hpast (Nat.mul_le_mul_right cs hi)))]
      · push_neg at hpast
        set len := min cs (file.length - j * cs) with hlen
        have hlenpos : 0 < len := lt_min hcs (Nat.sub_pos_of_lt hpast)
        rw [if_neg (by omega : ¬ len = 0)]
        have hlc : (chunk_at file cs j).length = len := by
          unfold chunk_at
          rw [List.length_take, List.length_drop]
        have hchunk_ne : chunk_at file cs j ≠ [] := by
          intro hnil
          rw [hnil] at hlc
          simp at hlc
          omega
        have hsf : spec_frame file sh ch cs j =
            some { offset := j * cs, data_len := (chunk_at file cs j).length,
                   data := chunk_at file cs j } := by
          unfold spec_frame
          rw [if_neg (show ¬ skip_chunk sh ch j from fun hh => hskip hh), if_neg hchunk_ne]
        by_cases hfull : len = cs
        · rw [show j * cs + len = (j + 1) * cs from by rw [hfull]; ring]
          rw [ih (j + 1) f (by omega) (by omega) (by omega)]
          rw [List.range'_succ]
          simp only [List.filterMap_cons, hsf]
          have hdata : (file.drop (j * cs)).take len = chunk_at file cs j := by
            unfold chunk_at
            rw [hfull]
          rw [hdata, hlc]
        · have hltcs : len < cs := lt_of_le_of_ne (min_le_left _ _) hfull
          have hlenn : len = file.length - j * cs := by
            by_cases hc : cs ≤ file.length - j * cs
            · exact absurd (Nat.min_eq_left hc) (by rw [← hlen]; exact hfull)
            · rw [hlen]
              exact Nat.min_eq_right (le_of_not_le hc)
          have hsent : j * cs + len = file.length := by
            rw [hlenn]
            exact Nat.add_sub_cancel' (le_of_lt hpast)
          rw [hsent]
          obtain ⟨f', rfl⟩ : ∃ f', f = f' + 1 := ⟨f - 1, by omega⟩
          rw [sendLoop_succ]
          have hidx2 : file.length / cs = j := by
            apply Nat.div_eq_of_lt_le (le_of_lt hpast)
            rw [Nat.succ_mul]
            have h1 : file.length - j * cs < cs := by rw [← hlenn]; exact hltcs
            omega
          rw [hidx2]
          rw [if_neg (by rintro ⟨-, hb, hc, hdd⟩; exact hskip ⟨hb, hc, hdd⟩)]
          rw [Nat.sub_self, Nat.min_zero, if_pos rfl]
          rw [List.range'_succ]
          simp only [List.filterMap_cons, hsf]
          rw [spec_tail_nil file sh ch cs (j + 1) d (fun i hi => by
            apply spec_frame_none_of_past file sh ch cs i
            have h1 : (j + 1) * cs ≤ i * cs := Nat.mul_le_mul_right cs hi
            have h2 : file.length ≤ (j + 1) * cs := by
              rw [Nat.succ_mul]
              omega
            omega)]
          have hdl : (file.drop (j * cs)).length = len := by
            rw [List.length_drop, ← hlenn]
          have h1 : (file.drop (j * cs)).take cs = file.drop (j * cs) :=
            List.take_of_length_le (by rw [hdl]; exact le_of_lt hltcs)
          have h2 : (file.drop (j * cs)).take len = file.drop (j * cs) := by
            rw [← hdl, List.take_length]
          have hdata : (file.drop (j * cs)).take len = chunk_at file cs j := by
            unfold chunk_at
            rw [h1, h2]
          rw [hdata, hlc]

/-- Claim C5: with both a server `Delta` and a client `Delta` available, the
frames written by `client.rs::send` are exactly the specification's: chunk
index `i` is skipped iff `i` is below the length of both `chunk_hash`
vectors and the vectors agree at `i` (a skipped chunk only advances the
offset), every non-skipped chunk in range of the file is sent in a `Data`
frame whose offset is the chunk's true byte offset and whose `data_len` is
the number of bytes actually read, and the terminating empty frame follows.
(`chunk_size` of a real delta is at least 1024, hence positive.) -/
theorem send_matches_spec (file : List Nat) (sd cd : TeleportDelta)
    (hcs : 0 < sd.chunk_size) :
    send file (some sd) (some cd) =
      some (spec_frames file sd.chunk_hash cd.chunk_hash sd.chunk_size ++
        [send_data_complete file]) := by
  have h := sendLoop_spec file sd.chunk_hash cd.chunk_hash sd.chunk_size hcs
    (numIndices file sd.chunk_hash cd.chunk_hash sd.chunk_size) 0
    (2 * numIndices file sd.chunk_hash cd.chunk_hash sd.chunk_size + 2)
    (by omega) (by omega) (le_refl _)
  rw [Nat.zero_mul] at h
  simp only [send, Option.isSome_some, Bool.and_self]
  rw [h]
  unfold spec_frames
  rw [List.range_eq_range']

/-- Witness for C5: a 2-byte file with chunk size 4 and one agreeing chunk
hash on each side. -/
theorem send_matches_spec_witness :
    send [1, 2] (some ⟨2, 4, 9, [11]⟩) (some ⟨2, 4, 9, [11]⟩) =
      some (spec_frames [1, 2] [11] [11] 4 ++ [send_data_complete [1, 2]]) :=
  send_matches_spec [1, 2] ⟨2, 4, 9, [11]⟩ ⟨2, 4, 9, [11]⟩ (by decide)

/-! ## C6: identical-file short circuit -/

/-- Counterexample to claim C6: server and client whole-file hashes are both
5 — equal — but the server did not echo `Overwrite` in `InitAck.features`
(features = 0), so the client never joins its background delta: instead of a
single zero-length frame counted as "Same", it streams the whole 2-byte file
(two frames) and counts it as sent. -/
theorem client_same_hash_not_joined :
    clientAfterAck (some 0) (some ⟨2, 1024, 5, []⟩) (some ⟨2, 1024, 5, []⟩) [1, 2] =
      (some [{ offset := 0, data_len := 2, data := [1, 2] },
             { offset := 2, data_len := 0, data := [] }], .sent) ∧
    TeleportDelta.hash ⟨2, 1024, 5, []⟩ = TeleportDelta.hash ⟨2, 1024, 5, []⟩ := by
  exact ⟨by decide, rfl⟩

/-- Claim C6 as amended: when the server echoed `Overwrite` in
`InitAck.features` (so the background delta is joined) and the server's
whole-file hash equals the client's computed whole-file hash, the client
sends exactly one `Data` frame — zero-length at offset `filesize` — and the
file is counted as skipped ("Same"). -/
theorem client_same_hash_short_circuit (features : Option Nat) (sd cd : TeleportDelta)
    (file : List Nat) (hov : check_feature features .overwrite = true)
    (hhash : cd.hash = sd.hash) :
    clientAfterAck features (some sd) (some cd) file =
      (some [send_data_complete file], .same) := by
  simp [clientAfterAck, hov, sameFile, hhash]

/-- Witness for C6 (amended): features bitset 2 (`Overwrite`), both
whole-file hashes 5. -/
theorem client_same_hash_short_circuit_witness :
    clientAfterAck (some 2) (some ⟨2, 1024, 5, []⟩) (some ⟨2, 1024, 5, []⟩) [1, 2] =
      (some [send_data_complete [1, 2]], .same) :=
  client_same_hash_short_circuit (some 2) ⟨2, 1024, 5, []⟩ ⟨2, 1024, 5, []⟩ [1, 2]
    (by decide) rfl

end Teleport
